import Mathlib

/-!
Verification of the SAFT peak-analysis program (src/SAFT.py and
src/groupPeaksDialog.py) against its natural-language specification.

The Python code is shallowly embedded: numbers become `ℚ` (or `ℝ` where a
rational power appears), numpy arrays and pandas series become lists,
fallible code returns `Except PyError`, and calls into scipy/numpy whose
results the repository merely consumes are abstracted as oracle function
parameters, with the glue code of the repository translated faithfully.
-/

namespace SAFT

/-- Runtime errors of the embedded Python fragments: `nameError` for a free
name that is bound nowhere, `unboundLocal` for a local variable read before
assignment, `attributeError` for a missing object attribute, `indexError`
for an out-of-range array index and `valueError` for numpy reductions over
empty arrays. -/
inductive PyError where
  | nameError (n : String)
  | unboundLocal (n : String)
  | attributeError (n : String)
  | indexError
  | valueError
deriving DecidableEq, Repr

/-- Models numpy integer array indexing `xs[i]`: a negative index counts from
the end, and an index outside `[-len, len)` raises `IndexError`. -/
def npGet (xs : List ℚ) (i : ℤ) : Except PyError ℚ :=
  let j : ℤ := if i < 0 then i + xs.length else i
  if 0 ≤ j ∧ j < xs.length then
    match xs.get? j.toNat with
    | some v => .ok v
    | none => .error .indexError
  else .error .indexError

/-- Models numpy fancy indexing `xs[idx]` for an integer index array: each
index is looked up with `npGet`, and any out-of-range index raises. -/
def npFancy (xs : List ℚ) : List ℤ → Except PyError (List ℚ)
  | [] => .ok []
  | i :: rest => do
    let v ← npGet xs i
    let vs ← npFancy xs rest
    .ok (v :: vs)

/-- Models numpy `ndarray.max()`: the maximum of the array, `ValueError` on an
empty array. -/
def npMax (xs : List ℚ) : Except PyError ℚ :=
  match xs with
  | [] => .error .valueError
  | x :: rest => .ok (rest.foldl max x)

/-- Embeds `findSimplePeaks` (src/SAFT.py lines 1106-1126) given the index
list `peaks` returned by `scipy.signal.find_peaks(ydat, prominence=snr)`.
When at least one peak was found the source reads `xdat[peakcwt]`, but
`peakcwt` is a name that is bound nowhere in that function (it is a local of
`findcwtPeaks`), so Python raises `NameError`; with no peaks it returns two
empty lists. -/
def findSimplePeaksFrom (peaks : List ℕ) (xdat ydat : List ℚ) :
    Except PyError (List ℚ × List ℚ) :=
  if peaks.length ≠ 0 then
    .error (.nameError "peakcwt")
  else
    .ok ([], [])

/-- Embeds `findSimplePeaks` with `scipy.signal.find_peaks` abstracted as the
oracle `find_peaks : ydat → prominence → peak indices`; the SNR spin-box value
`snr` is passed as the prominence threshold and `xdat`, `ydat` are the
unused-on-the-happy-path trace axes. -/
def findSimplePeaks (find_peaks : List ℚ → ℚ → List ℕ) (snr : ℚ)
    (xdat ydat : List ℚ) : Except PyError (List ℚ × List ℚ) :=
  findSimplePeaksFrom (find_peaks ydat snr) xdat ydat

/-- Embeds `np.arange(1, self.cwt_width)` (src/SAFT.py line 1134): the scale
list `[1, ..., width - 1]`, empty when `width ≤ 1`. -/
def cwtScales (width : ℕ) : List ℕ :=
  (List.range (width - 1)).map (· + 1)

/-- Default of the wavelet-width spin box `cwt_w_Spin` (src/SAFT.py line 674:
`pg.SpinBox(value=6, step=1, bounds=[2, 20], ...)`). -/
def cwt_w_default : ℕ := 6

/-- Bounds of the wavelet-width spin box (src/SAFT.py line 674). -/
def cwt_w_bounds : ℕ × ℕ := (2, 20)

/-- Embeds the small-peak cutoff of `findcwtPeaks` (src/SAFT.py lines
1140-1143): `_cutOff = removeSml * ydat.max() / 100`, keeping exactly the
detected pairs whose amplitude is strictly greater than `_cutOff`
(`np.where(ypeak > _cutOff)`). -/
def cutoffFilter (removeSml ydatMax : ℚ) (xpeak ypeak : List ℚ) :
    List ℚ × List ℚ :=
  let cutOff := removeSml * ydatMax / 100
  (((xpeak.zip ypeak).filter (fun p => decide (cutOff < p.2))).map Prod.fst,
    ypeak.filter (fun y => decide (cutOff < y)))

/-- Embeds `findcwtPeaks` (src/SAFT.py lines 1129-1153) given the raw index
list returned by `scipy.signal.find_peaks_cwt`.  The source subtracts 1 from
every index, fancy-indexes `xdat` and `ydat`, and filters by the amplitude
cutoff; in the no-peak branch its log line evaluates the local `_cutOff`,
which is only assigned in the other branch, so Python raises
`UnboundLocalError` there instead of returning the empty lists. -/
def findcwtPeaksFrom (peaksRaw : List ℕ) (removeSml : ℚ) (xdat ydat : List ℚ) :
    Except PyError (List ℚ × List ℚ) :=
  let peakcwt : List ℤ := peaksRaw.map (fun i => (i : ℤ) - 1)
  if peakcwt.length ≠ 0 then do
    let xpeak ← npFancy xdat peakcwt
    let ypeak ← npFancy ydat peakcwt
    let mx ← npMax ydat
    .ok (cutoffFilter removeSml mx xpeak ypeak)
  else
    .error (.unboundLocal "_cutOff")

/-- Embeds `findcwtPeaks` with `scipy.signal.find_peaks_cwt` abstracted as the
oracle `find_peaks_cwt : ydat → widths → min_snr → peak indices`; the source
builds the width range as `np.arange(1, width)`. -/
def findcwtPeaks (find_peaks_cwt : List ℚ → List ℕ → ℚ → List ℕ)
    (width : ℕ) (snr removeSml : ℚ) (xdat ydat : List ℚ) :
    Except PyError (List ℚ × List ℚ) :=
  findcwtPeaksFrom (find_peaks_cwt ydat (cwtScales width) snr) removeSml xdat ydat

/-- Counting a value in a filtered list: the count survives when the value
passes the filter and drops to zero otherwise. -/
theorem count_filter_ite (l : List ℚ) (p : ℚ → Bool) (a : ℚ) :
    (l.filter p).count a = if p a then l.count a else 0 := by
  split
  case isTrue h => exact List.count_filter h
  case isFalse h =>
    refine List.count_eq_zero.2 (fun hmem => h ?_)
    exact (List.mem_filter.1 hmem).2

/-- C1: the claim states that on a trace with no peaks both detectors return a
pair of empty sequences without raising.  At the flat trace
`ydat = [1,1,1,1]`, where both scipy detectors find no peaks, the simple
detector does return `([], [])`, but `findcwtPeaks` raises
`UnboundLocalError` on `_cutOff` while formatting its log message, so the
claim fails on the wavelet detector. -/
theorem findPeaks_noPeaks_behaviour :
    findSimplePeaks (fun _ _ => []) (13/10 : ℚ) [0, 1, 2, 3] [1, 1, 1, 1]
      = .ok ([], [])
  ∧ findcwtPeaks (fun _ _ _ => []) 6 (13/10 : ℚ) 30 [0, 1, 2, 3] [1, 1, 1, 1]
      = .error (.unboundLocal "_cutOff") := by
  constructor <;> rfl

/-- C2: the claim states that `findSimplePeaks` returns the detected peaks
without failing whenever at least one peak is found.  On the trace
`ydat = [0, 5, 0]`, where `scipy.signal.find_peaks` reports the local maximum
at index 1 (prominence 5 is above the threshold 1.3), the function instead
raises `NameError` because it indexes with the undefined name `peakcwt`. -/
theorem findSimplePeaks_raises_on_found_peaks :
    findSimplePeaks (fun _ _ => [1]) (13/10 : ℚ) [0, 1, 2] [0, 5, 0]
      = .error (.nameError "peakcwt") := by
  rfl

/-- C3 (amended): the small-peak cutoff of `findcwtPeaks` discards every
detected peak whose amplitude is at or below `cutoffPercent × max(signal) / 100`
and keeps exactly those strictly above it; consequently, for the trace
`[0,1,0,5,0,1,0,6,0]` with detected peaks at `t = 3` (amplitude 5) and
`t = 7` (amplitude 6), a cutoff of 80 % (threshold 4.8) keeps both peaks. -/
theorem cutoffFilter_keeps_strictly_above :
    (∀ (removeSml mx : ℚ) (xpeak ypeak : List ℚ) (a : ℚ),
        ((cutoffFilter removeSml mx xpeak ypeak).2).count a
          = if removeSml * mx / 100 < a then ypeak.count a else 0)
  ∧ findcwtPeaks (fun _ _ _ => [4, 8]) 2 1 80
      [0, 1, 2, 3, 4, 5, 6, 7, 8] [0, 1, 0, 5, 0, 1, 0, 6, 0]
      = .ok ([3, 7], [5, 6]) := by
  constructor
  · intro removeSml mx xpeak ypeak a
    simpa using count_filter_ite ypeak (fun y => decide (removeSml * mx / 100 < y)) a
  · have e1 : npFancy ([0,1,2,3,4,5,6,7,8] : List ℚ) [3, 7] = .ok [3, 7] := rfl
    have e2 : npFancy ([0,1,0,5,0,1,0,6,0] : List ℚ) [3, 7] = .ok [5, 6] := rfl
    have e3 : npMax ([0,1,0,5,0,1,0,6,0] : List ℚ) = .ok 6 := rfl
    norm_num [findcwtPeaks, findcwtPeaksFrom, cwtScales, e1, e2, e3, Bind.bind,
      Except.bind, cutoffFilter]

/-- C3 counterexample: with `cutoffPercent = 80` the wavelet detector keeps
both peaks of the scenario trace (its output is not `([7], [6])` as claimed,
because `5 > 4.8`), and a peak whose amplitude exactly equals the cutoff is
discarded rather than kept (`cutoffFilter 50 10 [0] [5]` has cutoff 5 and
returns empty sequences). -/
theorem cutoffFilter_scenario_counterexample :
    findcwtPeaks (fun _ _ _ => [4, 8]) 2 1 80
      [0, 1, 2, 3, 4, 5, 6, 7, 8] [0, 1, 0, 5, 0, 1, 0, 6, 0]
      = .ok ([3, 7], [5, 6])
  ∧ (([3, 7], [5, 6]) : List ℚ × List ℚ) ≠ (([7], [6]) : List ℚ × List ℚ)
  ∧ cutoffFilter 50 10 [0] [5] = ([], []) := by
  refine ⟨?_, by decide, by norm_num [cutoffFilter]⟩
  have e1 : npFancy ([0,1,2,3,4,5,6,7,8] : List ℚ) [3, 7] = .ok [3, 7] := rfl
  have e2 : npFancy ([0,1,0,5,0,1,0,6,0] : List ℚ) [3, 7] = .ok [5, 6] := rfl
  have e3 : npMax ([0,1,0,5,0,1,0,6,0] : List ℚ) = .ok 6 := rfl
  norm_num [findcwtPeaks, findcwtPeaksFrom, cwtScales, e1, e2, e3, Bind.bind,
    Except.bind, cutoffFilter]

/-- C4 (amended): `findcwtPeaks` hands `scipy.signal.find_peaks_cwt` the scale
list `np.arange(1, width)`, i.e. the range `1 .. width - 1` inclusive — the
value `width` itself is excluded — and the width spin box defaults to 6. -/
theorem cwtScales_range :
    (∀ (orc : List ℚ → List ℕ → ℚ → List ℕ) (width : ℕ) (snr removeSml : ℚ)
        (xdat ydat : List ℚ),
        findcwtPeaks orc width snr removeSml xdat ydat
          = findcwtPeaksFrom (orc ydat (cwtScales width) snr) removeSml xdat ydat)
  ∧ (∀ width s : ℕ, s ∈ cwtScales width ↔ 1 ≤ s ∧ s < width)
  ∧ cwt_w_default = 6 := by
  refine ⟨fun _ _ _ _ _ _ => rfl, fun width s => ?_, rfl⟩
  simp only [cwtScales, List.mem_map, List.mem_range]
  constructor
  · rintro ⟨i, hi, rfl⟩
    omega
  · rintro ⟨h1, h2⟩
    exact ⟨s - 1, by omega, by omega⟩

/-- C4 counterexample: at the default width 6 the scale list is
`[1, 2, 3, 4, 5]`; the claimed scale range `1 .. width` inclusive fails
because `width = 6` is not among the scales. -/
theorem cwtScales_default_counterexample :
    cwtScales cwt_w_default = [1, 2, 3, 4, 5]
  ∧ cwt_w_default ∉ cwtScales cwt_w_default
  ∧ cwt_w_default = 6 := by
  refine ⟨rfl, by decide, rfl⟩

/-- Embeds `updateDatasetComboBox` (src/SAFT.py lines 740-764) acting on the
dataset-name list `datasetList_CBX`.  The list `["-"]` is the empty
placeholder state and is reset wholesale; a name already present gets the
random 3-character suffix `rnd` (the result of `utils.getRandomString(3)`,
passed in as a parameter) appended and the substituted name is returned;
otherwise the name is appended unchanged and `none` (Python `False`) is
returned. -/
def updateDatasetComboBox (lst : List String) (name rnd : String) :
    List String × Option String :=
  if lst = ["-"] then
    ([name], none)
  else if name ∈ lst then
    (lst ++ [name ++ rnd], some (name ++ rnd))
  else
    (lst ++ [name], none)

/-- C5: registering a name that is already in the dataset list returns the
name with the 3-character suffix appended, and both the original and the
suffixed name are in the updated list; registering a fresh name appends it
unchanged and returns no substituted name.  (`["-"]` is the placeholder for
an empty list, in which no dataset name is present.) -/
theorem updateDatasetComboBox_collision (lst : List String) (name rnd : String)
    (h3 : rnd.length = 3) (hpl : lst ≠ ["-"]) :
    (name ∈ lst →
        (updateDatasetComboBox lst name rnd).2 = some (name ++ rnd)
      ∧ (name ++ rnd).length = name.length + 3
      ∧ name ∈ (updateDatasetComboBox lst name rnd).1
      ∧ name ++ rnd ∈ (updateDatasetComboBox lst name rnd).1)
  ∧ (name ∉ lst → updateDatasetComboBox lst name rnd = (lst ++ [name], none)) := by
  constructor
  · intro hin
    refine ⟨?_, ?_, ?_, ?_⟩
    · simp [updateDatasetComboBox, if_neg hpl, if_pos hin]
    · simp [String.length_append, h3]
    · simp only [updateDatasetComboBox, if_neg hpl, if_pos hin]
      exact List.mem_append_left _ hin
    · simp [updateDatasetComboBox, if_neg hpl, if_pos hin]
  · intro hout
    simp only [updateDatasetComboBox, if_neg hpl, if_neg hout]

/-- C5 witness: storing a second dataset named `foo` when `foo` is already
present returns the suffixed name `fooXYZ` and keeps both names. -/
theorem updateDatasetComboBox_collision_witness :
    ("XYZ" : String).length = 3
  ∧ (["foo"] : List String) ≠ ["-"]
  ∧ (("foo" ∈ (["foo"] : List String) →
        (updateDatasetComboBox ["foo"] "foo" "XYZ").2 = some ("foo" ++ "XYZ")
      ∧ ("foo" ++ "XYZ").length = ("foo" : String).length + 3
      ∧ "foo" ∈ (updateDatasetComboBox ["foo"] "foo" "XYZ").1
      ∧ "foo" ++ "XYZ" ∈ (updateDatasetComboBox ["foo"] "foo" "XYZ").1)
    ∧ ("foo" ∉ (["foo"] : List String) →
        updateDatasetComboBox ["foo"] "foo" "XYZ" = (["foo"] ++ ["foo"], none))) :=
  ⟨by decide, by decide,
    updateDatasetComboBox_collision ["foo"] "foo" "XYZ" (by decide) (by decide)⟩

/-- Embeds the lambda half of `setBaselineParams` (src/SAFT.py line 1203):
`self.auto_bs_lam = 10 ** self.auto_bs_lam_slider.value()` where the slider
position is an integer. -/
def auto_bs_lam (v : ℕ) : ℚ := 10 ^ v

/-- Embeds the p half of `setBaselineParams` (src/SAFT.py line 1204):
`self.auto_bs_P = 10 ** (- self.auto_bs_P_slider.value() / 5)`, Python true
division making the exponent a real number. -/
noncomputable def auto_bs_P (v : ℕ) : ℝ := (10 : ℝ) ^ (-(v : ℝ) / 5)

/-- Range of the lambda slider (src/SAFT.py lines 569-570:
`setMinimum(2)`, `setMaximum(9)`). -/
def lam_slider_range : ℕ × ℕ := (2, 9)

/-- Range of the p slider (src/SAFT.py lines 578-579: `setMinimum(0)`,
`setMaximum(20)`). -/
def P_slider_range : ℕ × ℕ := (0, 20)

/-- C8 (amended): for every admissible pair of slider positions the computed
baseline parameters satisfy `lambda > 0` and `0 < p ≤ 1`, and `p < 1`
(the open-interval bound of the claim) holds exactly for the positive
positions of the p slider; at position 0 the parameter degenerates to
`p = 1`. -/
theorem setBaselineParams_domain (vl vp : ℕ)
    (hl₁ : lam_slider_range.1 ≤ vl) (hl₂ : vl ≤ lam_slider_range.2)
    (hp : vp ≤ P_slider_range.2) :
    0 < auto_bs_lam vl
  ∧ 0 < auto_bs_P vp
  ∧ auto_bs_P vp ≤ 1
  ∧ (1 ≤ vp → auto_bs_P vp < 1) := by
  refine ⟨by unfold auto_bs_lam; positivity, Real.rpow_pos_of_pos (by norm_num) _, ?_, ?_⟩
  · refine Real.rpow_le_one_of_one_le_of_nonpos (by norm_num) ?_
    have h0 : (0:ℝ) ≤ (vp : ℝ) := Nat.cast_nonneg vp
    nlinarith
  · intro h1
    refine Real.rpow_lt_one_of_one_lt_of_neg (by norm_num) ?_
    have h0 : (1:ℝ) ≤ (vp : ℝ) := by exact_mod_cast h1
    nlinarith

/-- C8 witness: the theorem applied at the default slider positions
(lambda slider 6, p slider 3). -/
theorem setBaselineParams_domain_witness :
    lam_slider_range.1 ≤ 6 ∧ 6 ≤ lam_slider_range.2 ∧ 3 ≤ P_slider_range.2
  ∧ (0 < auto_bs_lam 6
    ∧ 0 < auto_bs_P 3
    ∧ auto_bs_P 3 ≤ 1
    ∧ (1 ≤ 3 → auto_bs_P 3 < 1)) :=
  ⟨by decide, by decide, by decide,
    setBaselineParams_domain 6 3 (by decide) (by decide) (by decide)⟩

/-- C8 counterexample: the minimum position 0 of the p slider is admissible, and
there `p = 10 ^ 0 = 1`, which is not strictly inside the open interval
`(0, 1)` required by the claim. -/
theorem setBaselineParams_p_one_counterexample :
    P_slider_range.1 = 0 ∧ auto_bs_P 0 = 1 ∧ ¬ auto_bs_P 0 < 1 := by
  have h : auto_bs_P 0 = 1 := by
    simp [auto_bs_P]
  exact ⟨rfl, h, by rw [h]; exact lt_irrefl 1⟩

/-- Value of a pandas series entry: `none` models NaN ("empty" peak slots),
`some q` a numeric peak time. -/
abbrev PVal := Option ℚ

/-- Models `pandas.Series.sort_values(ascending=True)` (src/SAFT.py line 979):
the numeric values in ascending order followed by the NaN entries, which
pandas places last. -/
def sort_values (xs : List PVal) : List PVal :=
  ((xs.filterMap id).insertionSort (· ≤ ·)).map some ++ xs.filter (fun x => x.isNone)

/-- Models `pandas.Series.dropna()` (src/SAFT.py line 980): the series with
the NaN entries removed. -/
def dropna (xs : List PVal) : List PVal := xs.filter (fun x => x.isSome)

/-- Embeds src/SAFT.py lines 975-982: the peak times of the reference
Mean cell of the reference condition are sorted ascending, NaN entries dropped, and the
result stored as `peakTimes` (also re-stored on the extracted dataset at line
1045). -/
def extractPeakTimes (cell : List PVal) : List PVal := dropna (sort_values cell)

/-- Helper: dropping NaN after the NaN-last sort leaves exactly the sorted
numeric values. -/
theorem extractPeakTimes_eq_sorted (cell : List PVal) :
    extractPeakTimes cell = ((cell.filterMap id).insertionSort (· ≤ ·)).map some := by
  unfold extractPeakTimes dropna sort_values
  rw [List.filter_append]
  have h1 : (((cell.filterMap id).insertionSort (· ≤ ·)).map some).filter
      (fun x => x.isSome) = ((cell.filterMap id).insertionSort (· ≤ ·)).map some := by
    refine List.filter_eq_self.2 (fun a ha => ?_)
    rcases List.mem_map.1 ha with ⟨b, _, rfl⟩
    rfl
  have h2 : (cell.filter (fun x => x.isNone)).filter (fun x => x.isSome) = [] := by
    refine List.filter_eq_nil_iff.2 (fun a ha => ?_)
    have := (List.mem_filter.1 ha).2
    simp only [Option.isNone_iff_eq_none] at this
    simp [this]
  rw [h1, h2, List.append_nil]

/-- C9: for any content of the Mean/reference Results cell, the stored
`peakTimes` sequence contains no NaN entry and its values are sorted in
ascending order. -/
theorem extractPeakTimes_sorted_nanFree (cell : List PVal) :
    none ∉ extractPeakTimes cell
  ∧ List.Sorted (· ≤ ·) ((extractPeakTimes cell).filterMap id) := by
  rw [extractPeakTimes_eq_sorted]
  constructor
  · simp
  · have h : (((cell.filterMap id).insertionSort (· ≤ ·)).map some).filterMap id
        = (cell.filterMap id).insertionSort (· ≤ ·) := by
      rw [List.filterMap_map]
      simpa using List.filterMap_some ((cell.filterMap id).insertionSort (· ≤ ·))
    rw [h]
    exact List.sorted_insertionSort _ _

/-- Data handed to the group-analysis dialog: a dict from set name to a peak
table (src/groupPeaksDialog.py; the table contents never matter because the
dialog crashes before using them, so a table is just its column list). -/
abbrev PeakData := List (String × List String)

/-- Attribute state of a `groupDialog` instance (src/groupPeaksDialog.py).
Python instance attributes are case sensitive, so `peakData` (written by
`addData`, line 112) and `peakdata` (read by `groupPeaks`, line 130) are
distinct attributes; an attribute holding `none` models one that was never
assigned, whose read raises `AttributeError`. -/
structure GroupDialogState where
  peakData : Option PeakData
  peakdata : Option PeakData
  groupsextracted_by_set : Option (List (String × List ℚ))
  saveGroupsEnabled : Bool

/-- State after `makeDialog` (src/groupPeaksDialog.py lines 18-60): no peak
data yet and the save-groups button disabled (line 50:
`self.saveGroupsBtn.setEnabled(False)`). -/
def initState : GroupDialogState :=
  { peakData := none, peakdata := none,
    groupsextracted_by_set := none, saveGroupsEnabled := false }

/-- Embeds `addData` (src/groupPeaksDialog.py lines 109-120): it stores the
data as `self.peakData` (line 112) and then crashes at line 117 reading
`self.N_ROI_label`, a label attribute `makeDialog` never creates; the error
carries the mutated state, as the object keeps the assignment made before the
raise. -/
def addData (s : GroupDialogState) (data : PeakData) :
    Except (PyError × GroupDialogState) GroupDialogState :=
  .error (.attributeError "N_ROI_label", { s with peakData := some data })

/-- State of the dialog after a call of `addData`, whether or not the call
raised (the exception leaves the object mutated). -/
def stateAfterAddData (s : GroupDialogState) (data : PeakData) :
    GroupDialogState :=
  match addData s data with
  | .ok s₁ => s₁
  | .error (_, s₁) => s₁

/-- Embeds `groupPeaks` (src/groupPeaksDialog.py lines 123-150): it first
resets `self.groupsextracted_by_set` to the empty dict (line 127), then iterates
`self.peakdata.keys()` (line 130) — an attribute that is never assigned
anywhere in the class, so on every state produced by `addData` Python raises
`AttributeError` there.  Even were `peakdata` present, the body would still
raise before line 150 enables the save button: with at least one set,
line 135 calls the nonexistent `pd.dataframe` (`AttributeError` on the pandas
module); with none, line 150 reads the nonexistent button attribute
`self.saveGroupsBtn.state`. -/
def groupPeaks (s : GroupDialogState) :
    Except (PyError × GroupDialogState) GroupDialogState :=
  let s₁ := { s with groupsextracted_by_set := some [] }
  match s₁.peakdata with
  | none => .error (.attributeError "peakdata", s₁)
  | some d =>
    match d with
    | [] => .error (.attributeError "state", s₁)
    | _ :: _ => .error (.attributeError "dataframe", s₁)

/-- C10: for every dataset supplied via `addData` to a freshly created
dialog, `groupPeaks` raises `AttributeError` on the never-assigned attribute
`peakdata` (the data lives in `peakData`), leaving the grouped-results dict
without a single entry and the save-groups button still disabled. -/
theorem groupPeaks_always_raises (data : PeakData) :
    ∃ s' : GroupDialogState,
      groupPeaks (stateAfterAddData initState data)
        = .error (.attributeError "peakdata", s')
    ∧ s'.groupsextracted_by_set = some []
    ∧ s'.saveGroupsEnabled = false := by
  refine ⟨_, rfl, rfl, rfl⟩

/-- Bin membership of `numpy.histogram` with `bins = nbins` equal-width bins
over `range = (0, mx)`: bin `i` covers the half-open interval
`[i*mx/nbins, (i+1)*mx/nbins)`, except the last bin, which is closed on the
right at `mx` (numpy: all but the last bin are half-open). -/
def npBinMem (nbins : ℕ) (mx : ℚ) (i : ℕ) (a : ℚ) : Bool :=
  decide ((i : ℚ) * mx / nbins ≤ a) &&
    (if i + 1 = nbins then decide (a ≤ mx) else decide (a < ((i : ℚ) + 1) * mx / nbins))

/-- Models `np.histogram(data, bins=nbins, range=(0., mx))` (documented numpy
semantics): the count vector of the `nbins` bins. -/
def npHistogram (data : List ℚ) (nbins : ℕ) (mx : ℚ) : List ℕ :=
  (List.range nbins).map (fun i => (data.filter (npBinMem nbins mx i)).length)

/-- Embeds the per-cell histogram computation of `doHistograms`
(src/SAFT.py line 816: `hy, hx = np.histogram(_pdf[_ROI], bins=_nbins,
range=(0., _max))`; the same call is made by `updateHistograms` at lines 841
and 849). -/
def doHistogramCell (amps : List ℚ) (nbins : ℕ) (mx : ℚ) : List ℕ :=
  npHistogram amps nbins mx

/-- Sum of a pointwise sum of two maps splits. -/
theorem sum_map_add_nat {α : Type} (l : List α) (f g : α → ℕ) :
    (l.map (fun x => f x + g x)).sum = (l.map f).sum + (l.map g).sum := by
  induction l with
  | nil => rfl
  | cons a l ih =>
    simp [ih]
    omega

/-- Summing indicator values is the length of the filtered list. -/
theorem sum_ite_length (data : List ℚ) (q : ℚ → Bool) :
    (data.map (fun a => if q a then 1 else 0)).sum = (data.filter q).length := by
  induction data with
  | nil => rfl
  | cons a l ih =>
    simp only [List.map_cons, List.sum_cons, List.filter_cons, ih]
    split
    all_goals simp
    omega

/-- Double-counting: summing per-bin counts over the data equals summing
per-datum bin counts. -/
theorem hist_swap (p : ℕ → ℚ → Bool) (data : List ℚ) (l : List ℕ) :
    (l.map (fun i => (data.filter (p i)).length)).sum
      = (data.map (fun a => (l.filter (fun i => p i a)).length)).sum := by
  induction l with
  | nil => simp
  | cons i l ih =>
    simp only [List.map_cons, List.sum_cons, ih]
    have h : (data.map (fun a => ((i :: l).filter (fun j => p j a)).length))
        = data.map (fun a => (if p i a then 1 else 0) + (l.filter (fun j => p j a)).length) := by
      refine List.map_congr_left (fun a _ => ?_)
      simp only [List.filter_cons]
      split
      all_goals simp
      omega
    rw [h, sum_map_add_nat, sum_ite_length]

theorem lower_iff (n : ℕ) (mx a : ℚ) (hn : 0 < n) (hmx : 0 < mx) (i : ℕ) :
    ((i : ℚ) * mx / n ≤ a) ↔ (i : ℤ) ≤ ⌊a * n / mx⌋ := by
  have hn' : (0:ℚ) < (n:ℚ) := by exact_mod_cast hn
  rw [div_le_iff₀ hn', ← le_div_iff₀ hmx, Int.le_floor]
  push_cast
  exact Iff.rfl

theorem upper_iff (n : ℕ) (mx a : ℚ) (hn : 0 < n) (hmx : 0 < mx) (i : ℕ) :
    (a < ((i : ℚ) + 1) * mx / n) ↔ ⌊a * n / mx⌋ < (i : ℤ) + 1 := by
  have hn' : (0:ℚ) < (n:ℚ) := by exact_mod_cast hn
  rw [lt_div_iff₀ hn', ← div_lt_iff₀ hmx, Int.floor_lt]
  push_cast
  exact Iff.rfl

theorem binMem_iff (n : ℕ) (mx a : ℚ) (hn : 0 < n) (hmx : 0 < mx)
    (h0 : 0 ≤ a) (h1 : a ≤ mx) (i : ℕ) (hi : i < n) :
    npBinMem n mx i a = true ↔ i = min (⌊a * n / mx⌋).toNat (n - 1) := by
  have hK0 : 0 ≤ ⌊a * n / mx⌋ := by
    apply Int.floor_nonneg.2
    positivity
  have hKn : ⌊a * n / mx⌋ ≤ (n : ℤ) := by
    have hx : a * n / mx ≤ (n : ℚ) := by
      rw [div_le_iff₀ hmx]
      have hn' : (0:ℚ) ≤ (n:ℚ) := by positivity
      nlinarith
    calc ⌊a * n / mx⌋ ≤ ⌊(n : ℚ)⌋ := Int.floor_le_floor hx
      _ = (n : ℤ) := Int.floor_natCast n
  by_cases hl : i + 1 = n
  · simp only [npBinMem, if_pos hl, Bool.and_eq_true, decide_eq_true_eq]
    rw [lower_iff n mx a hn hmx i]
    constructor
    · rintro ⟨hK, -⟩
      omega
    · intro he
      exact ⟨by omega, h1⟩
  · simp only [npBinMem, if_neg hl, Bool.and_eq_true, decide_eq_true_eq]
    rw [lower_iff n mx a hn hmx i, upper_iff n mx a hn hmx i]
    omega

theorem countP_range_eq (n k : ℕ) :
    (List.range n).countP (fun i => decide (i = k)) = if k < n then 1 else 0 := by
  induction n with
  | zero => simp
  | succ n ih =>
    rw [List.range_succ, List.countP_append, ih]
    simp only [List.countP_cons, List.countP_nil, decide_eq_true_eq]
    by_cases hk : n = k
    · subst hk
      simp
    · simp only [if_neg hk]
      by_cases hkn : k < n
      · rw [if_pos hkn, if_pos (by omega)]
      · rw [if_neg hkn, if_neg (by omega)]

theorem bins_partition (n : ℕ) (mx a : ℚ) (hn : 0 < n) (hmx : 0 < mx) :
    ((List.range n).filter (fun i => npBinMem n mx i a)).length
      = if 0 ≤ a ∧ a ≤ mx then 1 else 0 := by
  rw [← List.countP_eq_length_filter]
  split
  case isTrue h =>
    rcases h with ⟨h0, h1⟩
    have hcong : ∀ i ∈ List.range n,
        (npBinMem n mx i a = true
          ↔ decide (i = min (⌊a * n / mx⌋).toNat (n - 1)) = true) := by
      intro i hi
      rw [binMem_iff n mx a hn hmx h0 h1 i (List.mem_range.1 hi), decide_eq_true_eq]
    rw [List.countP_congr hcong, countP_range_eq]
    have hK0 : 0 ≤ ⌊a * n / mx⌋ := by
      apply Int.floor_nonneg.2
      positivity
    have hmin : min (⌊a * n / mx⌋).toNat (n - 1) < n := by omega
    rw [if_pos hmin]
  case isFalse h =>
    refine List.countP_eq_zero.2 (fun i hi => ?_)
    have hi' := List.mem_range.1 hi
    simp only [npBinMem, Bool.and_eq_true, decide_eq_true_eq, not_and]
    intro hlow
    have hK0 : 0 ≤ ⌊a * n / mx⌋ := by
      have := (lower_iff n mx a hn hmx i).1 hlow
      omega
    have h0 : 0 ≤ a := by
      by_contra hneg
      push_neg at hneg
      have hn' : (0:ℚ) < (n:ℚ) := by exact_mod_cast hn
      have hx : a * n / mx < 0 := by
        apply div_neg_of_neg_of_pos _ hmx
        nlinarith
      have := Int.floor_nonneg.1 hK0
      linarith
    have h1 : mx < a := by
      by_contra hle
      push_neg at hle
      exact h ⟨h0, hle⟩
    split
    · simp only [decide_eq_true_eq]
      exact not_le.2 h1
    · simp only [decide_eq_true_eq]
      rw [not_lt]
      have hn' : (0:ℚ) < (n:ℚ) := by exact_mod_cast hn
      have hin : ((i:ℚ) + 1) ≤ (n:ℚ) := by exact_mod_cast Nat.succ_le_of_lt hi'
      have hb : ((i:ℚ) + 1) * mx / n ≤ mx := by
        rw [div_le_iff₀ hn']
        nlinarith
      linarith

/-- C6 (amended): for every amplitude list, positive bin count and positive
upper edge, the histogram counts sum to exactly the number of amplitudes in
the interval `[0, mx]` — closed at the right edge, since the last numpy bin
includes `mx` — and amplitudes strictly outside that interval contribute to
no bin. -/
theorem doHistogramCell_sum (amps : List ℚ) (nbins : ℕ) (mx : ℚ)
    (hn : 0 < nbins) (hmx : 0 < mx) :
    (doHistogramCell amps nbins mx).sum
      = (amps.filter (fun a => decide (0 ≤ a) && decide (a ≤ mx))).length := by
  unfold doHistogramCell npHistogram
  rw [hist_swap]
  have h1 : amps.map
        (fun a => ((List.range nbins).filter (fun i => npBinMem nbins mx i a)).length)
      = amps.map (fun a => if 0 ≤ a ∧ a ≤ mx then 1 else 0) :=
    List.map_congr_left (fun a _ => bins_partition nbins mx a hn hmx)
  have h2 : amps.map (fun a => if 0 ≤ a ∧ a ≤ mx then (1:ℕ) else 0)
      = amps.map (fun a => if (decide (0 ≤ a) && decide (a ≤ mx)) then 1 else 0) := by
    refine List.map_congr_left (fun a _ => ?_)
    by_cases h : 0 ≤ a ∧ a ≤ mx
    · rw [if_pos h, if_pos]
      simp [h.1, h.2]
    · rw [if_neg h, if_neg]
      simp only [Bool.and_eq_true, decide_eq_true_eq]
      exact h
  rw [h1, h2, sum_ite_length]

/-- C6 witness: the sum property applied at the amplitude list
`[-3, 1, 5, 10, 12]` with 2 bins over `[0, 10]`, where three amplitudes fall
inside the closed range. -/
theorem doHistogramCell_sum_witness :
    0 < 2 ∧ (0:ℚ) < 10
  ∧ (doHistogramCell [-3, 1, 5, 10, 12] 2 10).sum
      = (([-3, 1, 5, 10, 12] : List ℚ).filter
          (fun a => decide (0 ≤ a) && decide (a ≤ 10))).length :=
  ⟨by decide, by norm_num, doHistogramCell_sum [-3, 1, 5, 10, 12] 2 10 (by decide) (by norm_num)⟩

/-- C6 counterexample: the amplitude exactly at the upper edge is not dropped:
`np.histogram([10], 2, (0, 10))` counts it in the last bin, so the counts sum
to 1 while the half-open interval `[0, 10)` of the claim contains no
amplitude. -/
theorem doHistogramCell_right_edge_counterexample :
    doHistogramCell [10] 2 10 = [0, 1]
  ∧ (doHistogramCell [10] 2 10).sum = 1
  ∧ (([10] : List ℚ).filter (fun a => decide (0 ≤ a) && decide (a < 10))).length = 0 := by
  refine ⟨?_, ?_, ?_⟩
  · norm_num [doHistogramCell, npHistogram, npBinMem, List.range_succ]
  · norm_num [doHistogramCell, npHistogram, npBinMem, List.range_succ]
  · norm_num



/-- Value of one spreadsheet cell: empty, a string, or a number. -/
inductive CellV where
  | empty
  | s (v : String)
  | q (v : ℚ)
deriving DecidableEq, Repr

/-- Models an openpyxl worksheet: the grid of cells (row major, 1-based in
the operations below) and the internal `_current_row` counter that `append`
uses and that writing a cell advances. -/
structure Sheet where
  rows : List (List CellV)
  cur : ℕ
deriving DecidableEq, Repr

/-- Pads a row with empty cells up to length `n`. -/
def padTo (n : ℕ) (row : List CellV) : List CellV :=
  row ++ List.replicate (n - row.length) CellV.empty

/-- Pads the grid with empty rows up to `n` rows. -/
def padRowsTo (n : ℕ) (rows : List (List CellV)) : List (List CellV) :=
  rows ++ List.replicate (n - rows.length) []

/-- Writes value `v` into (1-based) column `c` of a row, extending it as
needed. -/
def setInRow (row : List CellV) (c : ℕ) (v : CellV) : List CellV :=
  (padTo c row).set (c - 1) v

/-- Models `worksheet.cell(r, c).value = v`: writes the cell at 1-based row
`r`, column `c`, extending the grid as needed; the openpyxl cell lookup also
advances `_current_row` to at least `r`. -/
def setCell (sh : Sheet) (r c : ℕ) (v : CellV) : Sheet :=
  let rs := padRowsTo r sh.rows
  { rows := rs.set (r - 1) (setInRow (rs.getD (r - 1) []) c v),
    cur := max sh.cur r }

/-- Models `worksheet.append(vals)`: writes the values on row
`_current_row + 1` and advances the counter. -/
def appendRow (sh : Sheet) (vals : List CellV) : Sheet :=
  { rows := (padRowsTo (sh.cur + 1) sh.rows).set sh.cur vals,
    cur := sh.cur + 1 }

/-- Models `worksheet.insert_cols(1)`: every populated cell moves one column
to the right. -/
def insertCol1 (sh : Sheet) : Sheet :=
  { sh with rows := sh.rows.map (fun r => CellV.empty :: r) }

/-- A sheet fresh from `create_sheet`. -/
def emptySheet : Sheet := ⟨[], 0⟩

/-- Decomposed peak table of one condition (the output of
`utils.decomposeRDF`, repo code not under src/): ROI column names, the
time index, and the amplitude rows parallel to the index.  Modelled from the
spec: decomposition yields, per condition, a table whose rows are the
reference peak times and whose columns are ROI amplitudes. -/
structure DecompTable where
  cols : List String
  index : List ℚ
  rows : List (List ℚ)
deriving DecidableEq, Repr

/-- Embeds the duplicate-row removal of src/SAFT.py line 1420
(`.loc` over the negation of `.index.duplicated` with the keep-first option): keeps, for
each time value, only the first (index, row) pair carrying it. -/
def dedupRows (seen : List ℚ) : List (ℚ × List ℚ) → List (ℚ × List ℚ)
  | [] => []
  | p :: rest =>
    if p.1 ∈ seen then dedupRows seen rest
    else p :: dedupRows (p.1 :: seen) rest

/-- Embeds the header loop of `save_peaks` (src/SAFT.py lines 1426-1427):
`_wcs.cell(1, _num + 1).value = _pcol + \" \" + _condi` for each column. -/
def writeHeaderCells (condi : String) : List String → ℕ → Sheet → Sheet
  | [], _, sh => sh
  | c :: cs, num, sh =>
    writeHeaderCells condi cs (num + 1)
      (setCell sh 1 (num + 1) (CellV.s (c ++ " " ++ condi)))

/-- Embeds the data loop of `save_peaks` (src/SAFT.py lines 1430-1431):
`_wcs.append(_row)` for each data row (index and header excluded). -/
def appendDataRows : List (List ℚ) → Sheet → Sheet
  | [], sh => sh
  | r :: rs, sh => appendDataRows rs (appendRow sh (r.map CellV.q))

/-- Embeds the index loop of `save_peaks` (src/SAFT.py lines 1435-1437):
for each index entry, `cell(1,1) = \"Time\"` and `cell(num+2, 1)` the time
value (the Time header is written inside the loop, hence only when the
table has at least one row). -/
def writeIndexCells : List ℚ → ℕ → Sheet → Sheet
  | [], _, sh => sh
  | t :: ts, num, sh =>
    writeIndexCells ts (num + 1)
      (setCell (setCell sh 1 1 (CellV.s "Time")) (num + 2) 1 (CellV.q t))

/-- Embeds the per-condition sheet construction of `save_peaks`
(src/SAFT.py lines 1417-1437): dedup rows keep-first, write ROI headers,
append data rows, `insert_cols(1)`, then write the Time header and the time
index into column 1. -/
def buildSheet (condi : String) (t : DecompTable) : Sheet :=
  let z := dedupRows [] (t.index.zip t.rows)
  let sh1 := writeHeaderCells condi t.cols 0 emptySheet
  let sh2 := appendDataRows (z.map Prod.snd) sh1
  let sh3 := insertCol1 sh2
  writeIndexCells (z.map Prod.fst) 0 sh3

/-- Written from the spec words (section 6): one sheet per condition with a
header row `Time, \"<ROI> <condition>\"...` followed by one row per
(deduplicated, keep-first) reference time: the time then the ROI
amplitudes.  Compared against the source-derived `buildSheet`. -/
def specSheetRows (condi : String) (t : DecompTable) : List (List CellV) :=
  let z := dedupRows [] (t.index.zip t.rows)
  (CellV.s "Time" :: t.cols.map (fun c => CellV.s (c ++ " " ++ condi)))
    :: z.map (fun p => CellV.q p.1 :: p.2.map CellV.q)

/-- Setting the element right after a prefix replaces it. -/
theorem set_append_length {α : Type} (l₁ l₂ : List α) (x y : α) :
    (l₁ ++ x :: l₂).set l₁.length y = l₁ ++ y :: l₂ := by
  induction l₁ with
  | nil => rfl
  | cons a l ih => simp [List.set, ih]

/-- Reading the element right after a prefix returns it. -/
theorem getD_append_length {α : Type} (l₁ l₂ : List α) (x d : α) :
    (l₁ ++ x :: l₂).getD l₁.length d = x := by
  induction l₁ with
  | nil => rfl
  | cons a l ih => simpa using ih

/-- Padding to an already-reached row count is a no-op. -/
theorem padRowsTo_of_le (n : ℕ) (rows : List (List CellV)) (h : n ≤ rows.length) :
    padRowsTo n rows = rows := by
  unfold padRowsTo
  rw [Nat.sub_eq_zero_of_le h]
  simp

/-- Padding to an already-reached length is a no-op. -/
theorem padTo_of_le (n : ℕ) (row : List CellV) (h : n ≤ row.length) :
    padTo n row = row := by
  unfold padTo
  rw [Nat.sub_eq_zero_of_le h]
  simp

/-- Writing column 1 of a nonempty row replaces its head. -/
theorem setInRow_head (a : CellV) (l : List CellV) (v : CellV) :
    setInRow (a :: l) 1 v = v :: l := by
  unfold setInRow
  rw [padTo_of_le 1 (a :: l) (by simp)]
  rfl

/-- The header loop extends the single header row cell by cell. -/
theorem writeHeaderCells_inv (condi : String) (cs : List String) (num : ℕ)
    (row : List CellV) (h : row.length = num) :
    writeHeaderCells condi cs num ⟨[row], 1⟩
      = ⟨[row ++ cs.map (fun c => CellV.s (c ++ " " ++ condi))], 1⟩ := by
  induction cs generalizing num row with
  | nil => simp [writeHeaderCells]
  | cons c cs ih =>
    unfold writeHeaderCells
    have hset : setCell ⟨[row], 1⟩ 1 (num + 1) (CellV.s (c ++ " " ++ condi))
        = ⟨[row ++ [CellV.s (c ++ " " ++ condi)]], 1⟩ := by
      unfold setCell
      rw [padRowsTo_of_le 1 [row] (by simp)]
      have hrow : setInRow row (num + 1) (CellV.s (c ++ " " ++ condi))
          = row ++ [CellV.s (c ++ " " ++ condi)] := by
        unfold setInRow padTo
        have h1 : num + 1 - row.length = 1 := by omega
        rw [h1]
        have h2 : row ++ List.replicate 1 CellV.empty = row ++ [CellV.empty] := rfl
        rw [h2]
        have h3 : num + 1 - 1 = row.length := by omega
        rw [h3]
        exact set_append_length row [] CellV.empty (CellV.s (c ++ " " ++ condi))
      simp [hrow]
    rw [hset, ih (num + 1) _ (by simp [h])]
    simp

/-- The header loop on a fresh sheet produces exactly the header row. -/
theorem writeHeaderCells_start (condi : String) (c : String) (cs : List String) :
    writeHeaderCells condi (c :: cs) 0 emptySheet
      = ⟨[(c :: cs).map (fun x => CellV.s (x ++ " " ++ condi))], 1⟩ := by
  unfold writeHeaderCells
  have hset : setCell emptySheet 1 1 (CellV.s (c ++ " " ++ condi))
      = ⟨[[CellV.s (c ++ " " ++ condi)]], 1⟩ := by
    rfl
  rw [hset, writeHeaderCells_inv condi cs 1 _ (by simp)]
  simp


/-- Appending to a sheet whose grid matches its row counter adds the row at
the bottom. -/
theorem appendRow_eq (sh : Sheet) (vals : List CellV) (h : sh.rows.length = sh.cur) :
    appendRow sh vals = ⟨sh.rows ++ [vals], sh.cur + 1⟩ := by
  unfold appendRow padRowsTo
  have h1 : sh.cur + 1 - sh.rows.length = 1 := by omega
  rw [h1]
  have h2 : sh.rows ++ List.replicate 1 ([] : List CellV) = sh.rows ++ [] :: [] := rfl
  rw [h2]
  have h3 : sh.cur = sh.rows.length := h.symm
  rw [h3, set_append_length]

/-- The data loop appends all rows below the existing grid. -/
theorem appendDataRows_eq (rs : List (List ℚ)) (sh : Sheet)
    (h : sh.rows.length = sh.cur) :
    appendDataRows rs sh
      = ⟨sh.rows ++ rs.map (fun r => r.map CellV.q), sh.cur + rs.length⟩ := by
  induction rs generalizing sh with
  | nil => simp [appendDataRows]
  | cons r rs ih =>
    unfold appendDataRows
    rw [appendRow_eq sh _ h, ih _ (by simp [h])]
    simp
    omega

/-- Writing cell (1,1) rewrites the head of the first row. -/
theorem setCell_one_one (a : List CellV) (tail : List (List CellV)) (cur : ℕ)
    (v : CellV) :
    setCell ⟨a :: tail, cur⟩ 1 1 v = ⟨setInRow a 1 v :: tail, max cur 1⟩ := by
  unfold setCell
  rw [padRowsTo_of_le 1 _ (by simp)]
  rfl

/-- Writing column 1 of the row right after a prefix of rows rewrites that
head cell of that row. -/
theorem setCell_at_append (pre : List (List CellV)) (r : List CellV)
    (rest : List (List CellV)) (cur : ℕ) (v : CellV) :
    setCell ⟨pre ++ r :: rest, cur⟩ (pre.length + 1) 1 v
      = ⟨pre ++ setInRow r 1 v :: rest, max cur (pre.length + 1)⟩ := by
  unfold setCell
  rw [padRowsTo_of_le _ _ (by simp)]
  simp only [Nat.add_sub_cancel]
  rw [getD_append_length, set_append_length]

/-- Invariant of the index loop once the Time header is in place: each
iteration overwrites the head cell of the next data row with the time
value. -/
theorem writeIndexCells_rows (ts : List ℚ) (num cur : ℕ) (hr : List CellV)
    (done rest : List (List CellV))
    (hhr : setInRow hr 1 (CellV.s "Time") = hr)
    (hdone : done.length = num) (hrest : rest.length = ts.length) :
    (writeIndexCells ts num ⟨(hr :: done) ++ rest, cur⟩).rows
      = (hr :: done) ++ (ts.zip rest).map (fun p => setInRow p.2 1 (CellV.q p.1)) := by
  subst hdone
  induction ts generalizing done rest cur with
  | nil =>
    have : rest = [] := List.length_eq_zero.1 hrest
    subst this
    simp [writeIndexCells]
  | cons t ts ih =>
    rcases rest with - | ⟨r, rest⟩
    · simp at hrest
    unfold writeIndexCells
    have hshape1 : (hr :: done) ++ r :: rest = hr :: (done ++ r :: rest) := by
      simp
    rw [hshape1, setCell_one_one, hhr, ← hshape1]
    have hlen : done.length + 2 = (hr :: done).length + 1 := by simp
    rw [hlen, setCell_at_append]
    have hshape2 : (hr :: done) ++ setInRow r 1 (CellV.q t) :: rest
        = (hr :: (done ++ [setInRow r 1 (CellV.q t)])) ++ rest := by
      simp
    rw [hshape2]
    have hlen2 : (done ++ [setInRow r 1 (CellV.q t)]).length = done.length + 1 := by
      simp
    rw [show done.length + 1 = (done ++ [setInRow r 1 (CellV.q t)]).length from hlen2.symm]
    rw [ih _ _ _ (by simpa using hrest)]
    simp


/-- Full effect of the index loop on the sheet as left by `insert_cols(1)`:
the Time header lands in cell (1,1) and the times in column 1 of the data
rows. -/
theorem writeIndexCells_all (t0 : ℚ) (ts : List ℚ) (cur : ℕ) (hdr : List CellV)
    (r : List CellV) (rest : List (List CellV)) (hrest : rest.length = ts.length) :
    (writeIndexCells (t0 :: ts) 0
        ⟨(CellV.empty :: hdr) :: (CellV.empty :: r) :: rest, cur⟩).rows
      = (CellV.s "Time" :: hdr) :: (CellV.q t0 :: r)
          :: (ts.zip rest).map (fun p => setInRow p.2 1 (CellV.q p.1)) := by
  unfold writeIndexCells
  rw [setCell_one_one, setInRow_head]
  rw [show (CellV.s "Time" :: hdr) :: (CellV.empty :: r) :: rest
      = [CellV.s "Time" :: hdr] ++ (CellV.empty :: r) :: rest from rfl]
  rw [show (0 + 2 : ℕ)
      = ([CellV.s "Time" :: hdr] : List (List CellV)).length + 1 from rfl]
  rw [setCell_at_append, setInRow_head]
  rw [show ([CellV.s "Time" :: hdr] : List (List CellV))
        ++ (CellV.q t0 :: r) :: rest
      = ((CellV.s "Time" :: hdr) :: [CellV.q t0 :: r]) ++ rest from rfl]
  rw [writeIndexCells_rows _ _ _ _ _ _ (setInRow_head _ _ _) (by simp) hrest]
  simp

/-- Refinement of one exported sheet: the grid built by the cell-level
operations of the source equals the sheet described by the spec, for any
condition table with at least one column and one row. -/
theorem buildSheet_rows (condi : String) (t : DecompTable)
    (hcols : t.cols ≠ []) (hz : dedupRows [] (t.index.zip t.rows) ≠ []) :
    (buildSheet condi t).rows = specSheetRows condi t := by
  obtain ⟨c, cs, hc⟩ := List.exists_cons_of_ne_nil hcols
  obtain ⟨p0, z1, hzz⟩ := List.exists_cons_of_ne_nil hz
  obtain ⟨t0, r0⟩ := p0
  unfold buildSheet specSheetRows
  dsimp only
  rw [hc, hzz, writeHeaderCells_start]
  rw [appendDataRows_eq _ _ (by simp)]
  unfold insertCol1
  simp only [List.map_cons, List.map_map, List.cons_append, List.nil_append,
    List.map_append, Function.comp]
  rw [writeIndexCells_all _ _ _ _ _ _ (by simp)]
  simp [List.zip_map', List.map_map, Function.comp, setInRow_head]


/-- Models the Python double-splat dict merge of src/SAFT.py line 1415 on
association lists with unique keys: keys of `a` first (values overridden by
`b` where present), then the keys only in `b`. -/
def dictMerge (a b : List (String × DecompTable)) : List (String × DecompTable) :=
  a.map (fun p => (p.1, ((b.find? (fun q => q.1 == p.1)).map Prod.snd).getD p.2))
    ++ b.filter (fun q => !(a.any (fun p => p.1 == q.1)))

/-- Embeds the sheet-writing part of `save_peaks` (src/SAFT.py lines
1401-1437): the allowed decomposition merged with the (optional) excluded
one, and one sheet built per condition key of the merge.  The decompositions
themselves come from `utils.decomposeRDF`, repo code not under src/. -/
def save_peaks_sheets (allowed : List (String × DecompTable))
    (excluded : Option (List (String × DecompTable))) : List (String × Sheet) :=
  (dictMerge allowed (excluded.getD [])).map (fun p => (p.1, buildSheet p.1 p.2))

/-- Keep-first: after deduplication the entry found for any time value is
exactly the first entry carrying that time in the original list. -/
theorem dedupRows_find (l : List (ℚ × List ℚ)) (seen : List ℚ) (t : ℚ)
    (ht : t ∉ seen) :
    (dedupRows seen l).find? (fun p => p.1 == t) = l.find? (fun p => p.1 == t) := by
  induction l generalizing seen with
  | nil => rfl
  | cons p rest ih =>
    unfold dedupRows
    by_cases hp : p.1 ∈ seen
    · rw [if_pos hp, ih seen ht]
      have hne : (p.1 == t) = false := by
        simp only [beq_eq_false_iff_ne, ne_eq]
        intro he
        exact ht (he ▸ hp)
      rw [List.find?_cons, hne]
    · rw [if_neg hp]
      by_cases he : p.1 = t
      · rw [List.find?_cons, List.find?_cons]
        have : (p.1 == t) = true := by simp [he]
        rw [this]
      · have hne : (p.1 == t) = false := by simp [he]
        rw [List.find?_cons, List.find?_cons, hne]
        refine ih (p.1 :: seen) ?_
        simp only [List.mem_cons, not_or]
        exact ⟨fun hc => he hc.symm, ht⟩

/-- After deduplication no time value occurs twice, and none from the seen
accumulator occurs at all. -/
theorem dedupRows_nodup (l : List (ℚ × List ℚ)) (seen : List ℚ) :
    ((dedupRows seen l).map Prod.fst).Nodup
  ∧ ∀ x ∈ (dedupRows seen l).map Prod.fst, x ∉ seen := by
  induction l generalizing seen with
  | nil => simp [dedupRows]
  | cons p rest ih =>
    unfold dedupRows
    by_cases hp : p.1 ∈ seen
    · rw [if_pos hp]
      exact ih seen
    · rw [if_neg hp]
      obtain ⟨hnd, hout⟩ := ih (p.1 :: seen)
      refine ⟨?_, ?_⟩
      · simp only [List.map_cons, List.nodup_cons]
        refine ⟨fun hc => ?_, hnd⟩
        have := hout _ hc
        simp at this
      · intro x hx
        simp only [List.map_cons, List.mem_cons] at hx
        rcases hx with rfl | hx
        · exact hp
        · have := hout _ hx
          simp only [List.mem_cons, not_or] at this
          exact this.2

/-- A zip of two nonempty lists is nonempty. -/
theorem zip_ne_nil_of_ne_nil {α β : Type} (l₁ : List α) (l₂ : List β)
    (h₁ : l₁ ≠ []) (h₂ : l₂ ≠ []) : l₁.zip l₂ ≠ [] := by
  rcases l₁ with - | ⟨a, l₁⟩
  · contradiction
  rcases l₂ with - | ⟨b, l₂⟩
  · contradiction
  simp [List.zip_cons_cons]

/-- Deduplicating a nonempty list with nothing seen yet is nonempty. -/
theorem dedupRows_ne_nil (l : List (ℚ × List ℚ)) (hl : l ≠ []) :
    dedupRows [] l ≠ [] := by
  rcases l with - | ⟨p, rest⟩
  · contradiction
  unfold dedupRows
  simp

/-- C7 (amended): peak export writes one sheet per condition key of the
merged allowed/excluded decomposition (a Python double-splat merge of the
two dicts); every sheet has first
column headed Time, one column per ROI headed `<ROI> <condition>`, and the
rows of its table with duplicate times removed keeping the first occurrence
(each condition table assumed nonempty, since the Time header is only
written when a row exists); when the dataset has no exclude list the tables
are exactly the decomposed Results tables, while a condition present in the
exclude-list decomposition takes its rows and columns from the excluded
table instead (the dict merge lets it override the Results table). -/
theorem save_peaks_layout (allowed : List (String × DecompTable))
    (excluded : Option (List (String × DecompTable)))
    (h : ∀ p ∈ dictMerge allowed (excluded.getD []),
        p.2.cols ≠ [] ∧ p.2.index ≠ [] ∧ p.2.rows ≠ []) :
    (save_peaks_sheets allowed excluded).map (fun e => (e.1, e.2.rows))
      = (dictMerge allowed (excluded.getD [])).map
          (fun p => (p.1, specSheetRows p.1 p.2))
  ∧ (excluded = none → dictMerge allowed (excluded.getD []) = allowed)
  ∧ (∀ (l : List (ℚ × List ℚ)) (t : ℚ),
      (dedupRows [] l).find? (fun p => p.1 == t) = l.find? (fun p => p.1 == t))
  ∧ (∀ l : List (ℚ × List ℚ), ((dedupRows [] l).map Prod.fst).Nodup) := by
  refine ⟨?_, ?_, fun l t => dedupRows_find l [] t (by simp),
    fun l => (dedupRows_nodup l []).1⟩
  · unfold save_peaks_sheets
    rw [List.map_map]
    refine List.map_congr_left (fun p hp => ?_)
    obtain ⟨hc, hi, hr⟩ := h p hp
    have hz : dedupRows [] (p.2.index.zip p.2.rows) ≠ [] :=
      dedupRows_ne_nil _ (zip_ne_nil_of_ne_nil _ _ hi hr)
    simp only [Function.comp]
    rw [buildSheet_rows p.1 p.2 hc hz]
  · intro he
    subst he
    unfold dictMerge
    simp


/-- C7 witness: the layout theorem applied to a dataset with one condition
`A`, one ROI `X`, one peak, and no exclude list. -/
theorem save_peaks_layout_witness :
    (∀ p ∈ dictMerge [("A", ⟨["X"], [0], [[1]]⟩)]
        ((none : Option (List (String × DecompTable))).getD []),
      p.2.cols ≠ [] ∧ p.2.index ≠ [] ∧ p.2.rows ≠ [])
  ∧ ((save_peaks_sheets [("A", ⟨["X"], [0], [[1]]⟩)] none).map
        (fun e => (e.1, e.2.rows))
      = (dictMerge [("A", ⟨["X"], [0], [[1]]⟩)]
          ((none : Option (List (String × DecompTable))).getD [])).map
          (fun p => (p.1, specSheetRows p.1 p.2))
    ∧ ((none : Option (List (String × DecompTable))) = none →
        dictMerge [("A", ⟨["X"], [0], [[1]]⟩)]
          ((none : Option (List (String × DecompTable))).getD [])
          = [("A", ⟨["X"], [0], [[1]]⟩)])
    ∧ (∀ (l : List (ℚ × List ℚ)) (t : ℚ),
        (dedupRows [] l).find? (fun p => p.1 == t) = l.find? (fun p => p.1 == t))
    ∧ (∀ l : List (ℚ × List ℚ), ((dedupRows [] l).map Prod.fst).Nodup)) :=
  ⟨by decide, save_peaks_layout _ _ (by decide)⟩

/-- C7 counterexample: with an exclude list also containing condition `A`,
the exported sheet for `A` is built from the excluded table, not from the
decomposed Results table of the condition as the claim states. -/
theorem save_peaks_excluded_overrides_counterexample :
    (save_peaks_sheets [("A", ⟨["X"], [0], [[1]]⟩)]
        (some [("A", ⟨["X"], [0], [[2]]⟩)])).map (fun e => (e.1, e.2.rows))
      = [("A", specSheetRows "A" ⟨["X"], [0], [[2]]⟩)]
  ∧ specSheetRows "A" ⟨["X"], [0], [[2]]⟩ ≠ specSheetRows "A" ⟨["X"], [0], [[1]]⟩ := by
  refine ⟨by decide, by decide⟩


end SAFT
